import Mathlib

/-!
Verification of the notes-manager client (src/app/page.tsx) against its
natural-language specification.

The program is a single React component managing a list of Note records.
We shallowly embed its pure core:

* JavaScript strings become Lean String; the character-level helpers below
  model String.prototype.toLowerCase (ASCII range, the only range the
  claims exercise), String.prototype.trim and String.prototype.includes.
* The localStorage slot keyed "notes" becomes `Storage := Option StoredValue`;
  `StoredValue.notes ns` stands for the string JSON.stringify(ns) (the
  serialization is injective on these flat records), `StoredValue.garbage`
  stands for any stored string JSON.parse rejects.  JSON.parse throwing is
  modelled by `load` returning `Except.error`.
* Date.now() and crypto.randomUUID() are nondeterministic inputs of the
  host; they are passed as explicit parameters (`now`, `newId`).
* Each state update handler becomes a function on `AppState`; the persist
  useEffect (page.tsx lines 33-37) runs exactly when setNotes is called,
  so it is inlined at every point a handler replaces the notes array.
-/

/-- Models Char-wise lowering of a JavaScript string by toLowerCase
(page.tsx lowercases only for comparison; ASCII suffices here). -/
def lowerStr (s : String) : String := ⟨s.data.map Char.toLower⟩

/-- Drops whitespace from both ends of a character list. -/
def trimChars (cs : List Char) : List Char :=
  ((cs.dropWhile Char.isWhitespace).reverse.dropWhile Char.isWhitespace).reverse

/-- Models String.prototype.trim. -/
def trimStr (s : String) : String := ⟨trimChars s.data⟩

/-- Does the character list needle occur contiguously inside hay?  Executable
model of String.prototype.includes, scanning every start position. -/
def containsFrom (hay needle : List Char) : Bool :=
  needle.isPrefixOf hay ||
    (match hay with
     | [] => false
     | _ :: t => containsFrom t needle)

/-- Models hay.includes(needle) on JavaScript strings. -/
def containsSub (hay needle : String) : Bool := containsFrom hay.data needle.data

/-- The Note record (page.tsx lines 6-13).  Timestamps are milliseconds since
epoch, hence Nat. -/
structure Note where
  id : String
  title : String
  content : String
  tags : List String
  createdAt : Nat
  updatedAt : Nat
deriving DecidableEq

/-- A value found in the localStorage slot: either the serialization of a
notes array (JSON.stringify of it) or a string JSON.parse rejects. -/
inductive StoredValue where
  | notes (ns : List Note)
  | garbage
deriving DecidableEq

/-- The localStorage slot keyed "notes"; none models an absent key. -/
abbrev Storage := Option StoredValue

/-- The one host-level exception relevant here: JSON.parse throwing
SyntaxError on unparseable input. -/
inductive JsError where
  | parseFailure
deriving DecidableEq

/-- Models JSON.parse on the stored string: the serialization of a notes
array parses back to it, anything else throws (none). -/
def parseStored : StoredValue → Option (List Note)
  | .notes ns => some ns
  | .garbage => none

/-- The load useEffect (page.tsx lines 26-31): read the slot; an absent key
leaves the initial empty state; JSON.parse is applied with no try/catch, so
an unparseable value makes the effect throw.  The Except captures whether
the effect completed and with which in-memory collection. -/
def load : Storage → Except JsError (List Note)
  | none => .ok []
  | some sv =>
    match parseStored sv with
    | some ns => .ok ns
    | none => .error .parseFailure

/-- The persist useEffect body (page.tsx lines 33-37): write the full
serialized collection when it is non-empty, otherwise leave the slot. -/
def persist (ns : List Note) (st : Storage) : Storage :=
  if ns.length > 0 then some (.notes ns) else st

/-- The matchesSearch predicate of filteredNotes (page.tsx lines 47-50). -/
def matchesSearch (q : String) (n : Note) : Bool :=
  q == "" ||
  containsSub (lowerStr n.title) (lowerStr q) ||
  containsSub (lowerStr n.content) (lowerStr q) ||
  n.tags.any (fun t => containsSub (lowerStr t) (lowerStr q))

/-- The matchesTag predicate of filteredNotes (page.tsx line 52). -/
def matchesTag (tf : Option String) (n : Note) : Bool :=
  match tf with
  | none => true
  | some t => n.tags.contains t

/-- The filteredNotes memo (page.tsx lines 45-56): filter by both predicates,
then sort by the comparator (a, b) => b.updatedAt - a.updatedAt.  Array sort
is stable with this comparator exactly when the a-before-b test
b.updatedAt <= a.updatedAt holds, which mergeSort models. -/
def filteredNotes (notes : List Note) (q : String) (tf : Option String) : List Note :=
  (notes.filter (fun n => matchesSearch q n && matchesTag tf n)).mergeSort
    (fun a b => decide (b.updatedAt ≤ a.updatedAt))

/-- The transient editor fields title / content / currentTags
(page.tsx lines 21-24). -/
structure EditBuffer where
  title : String
  content : String
  tags : List String
deriving DecidableEq

/-- The in-memory collection together with the durable slot. -/
structure AppState where
  notes : List Note
  storage : Storage
deriving DecidableEq

/-- The fresh record built in the create branch of saveNote
(page.tsx lines 88-95). -/
def mkNote (newId : String) (buf : EditBuffer) (now : Nat) : Note :=
  { id := newId, title := buf.title, content := buf.content, tags := buf.tags,
    createdAt := now, updatedAt := now }

/-- The update branch of saveNote (page.tsx lines 82-86): map over the
collection replacing the note whose id matches. -/
def updateNotes (targetId : String) (buf : EditBuffer) (now : Nat)
    (notes : List Note) : List Note :=
  notes.map fun n =>
    if n.id == targetId then
      { n with
        title := buf.title
        content := buf.content
        tags := buf.tags
        updatedAt := now }
    else n

/-- The filter inside deleteNote (page.tsx line 104). -/
def removeNotes (id : String) (notes : List Note) : List Note :=
  notes.filter fun n => !(n.id == id)

/-- The saveNote handler (page.tsx lines 76-100): a buffer whose trimmed
title and trimmed content are both empty returns before touching any state;
otherwise the collection is replaced (update branch when a note is being
edited, create branch otherwise) and the persist effect runs on it. -/
def saveNote (buf : EditBuffer) (currentNote : Option Note) (newId : String)
    (now : Nat) (st : AppState) : AppState :=
  if trimStr buf.title == "" && trimStr buf.content == "" then st
  else
    let ns : List Note :=
      match currentNote with
      | some cn => updateNotes cn.id buf now st.notes
      | none => mkNote newId buf now :: st.notes
    { notes := ns, storage := persist ns st.storage }

/-- The deleteNote handler (page.tsx lines 102-106): the confirm dialog
outcome is the Bool; on true the matching note is filtered out and the
persist effect runs on the result. -/
def deleteNote (id : String) (confirmed : Bool) (st : AppState) : AppState :=
  if confirmed then
    let ns := removeNotes id st.notes
    { notes := ns, storage := persist ns st.storage }
  else st

/-- The addTag handler (page.tsx lines 117-123): trim and lowercase the
input; append it unless it is empty or already present. -/
def addTag (tagInput : String) (currentTags : List String) : List String :=
  let tag := lowerStr (trimStr tagInput)
  if tag != "" && !currentTags.contains tag then currentTags ++ [tag]
  else currentTags

/-- Fixture note used by witnesses. -/
def noteA : Note :=
  { id := "a", title := "Work plan", content := "meet", tags := ["x"],
    createdAt := 1, updatedAt := 100 }

/-- Second fixture note used by witnesses. -/
def noteB : Note :=
  { id := "b", title := "Home", content := "rest", tags := ["y"],
    createdAt := 2, updatedAt := 200 }

/-- Fixture edit buffer with non-empty title used by witnesses. -/
def bufX : EditBuffer := { title := "Groceries", content := "", tags := ["z"] }

/-- Fixture app state holding one note, in sync with its storage slot. -/
def stA : AppState := { notes := [noteA], storage := some (.notes [noteA]) }

/-- C1: load() silently yields the empty collection when the stored value is
absent or unparseable.  FALSE for the unparseable case: page.tsx line 29
applies JSON.parse with no try/catch, so an unparseable stored value makes
the load effect throw instead of yielding the empty collection. -/
theorem c1_load_counterexample :
    load (some StoredValue.garbage) = Except.error JsError.parseFailure ∧
    load (some StoredValue.garbage) ≠ Except.ok ([] : List Note) := by
  refine ⟨rfl, ?_⟩
  simp [load, parseStored]

/-- C1 (amended): load() yields the empty collection when the stored value is
absent, yields the deserialized collection when it parses, and surfaces the
parse error (an uncaught exception) when it is unparseable. -/
theorem c1_load_amended :
    load none = Except.ok ([] : List Note) ∧
    (∀ ns : List Note, load (some (StoredValue.notes ns)) = Except.ok ns) ∧
    load (some StoredValue.garbage) = Except.error JsError.parseFailure :=
  ⟨rfl, fun _ => rfl, rfl⟩

/-- C4: saving with both title and content empty is a no-op: the collection
is unchanged and nothing is persisted (saveNote returns before calling
setNotes, so the persist effect never runs). -/
theorem c4_empty_save_noop (buf : EditBuffer) (cur : Option Note)
    (newId : String) (now : Nat) (st : AppState)
    (ht : buf.title = "") (hc : buf.content = "") :
    saveNote buf cur newId now st = st := by
  unfold saveNote
  rw [ht, hc]
  rfl

/-- C4 witness: the empty buffer leaves a concrete state untouched. -/
theorem c4_empty_save_noop_witness :
    saveNote { title := "", content := "", tags := ["z"] } none "fresh" 9 stA = stA :=
  c4_empty_save_noop _ none "fresh" 9 stA rfl rfl

theorem matchesSearch_iff (q : String) (n : Note) :
    matchesSearch q n = true ↔
      (q = "" ∨ containsSub (lowerStr n.title) (lowerStr q) = true ∨
        containsSub (lowerStr n.content) (lowerStr q) = true ∨
        ∃ t ∈ n.tags, containsSub (lowerStr t) (lowerStr q) = true) := by
  simp [matchesSearch, List.any_eq_true, or_assoc]

theorem matchesTag_iff (tf : Option String) (n : Note) :
    matchesTag tf n = true ↔ (tf = none ∨ ∃ tg, tf = some tg ∧ tg ∈ n.tags) := by
  cases tf with
  | none => simp [matchesTag]
  | some t => simp [matchesTag]

/-- C2: a note of the collection is visible iff the query is empty or occurs
case-insensitively in its title, its content or one of its tags, and the tag
filter is unset or is one of its tags. -/
theorem c2_visible_iff (notes : List Note) (q : String) (tf : Option String)
    (n : Note) (hn : n ∈ notes) :
    n ∈ filteredNotes notes q tf ↔
      ((q = "" ∨ containsSub (lowerStr n.title) (lowerStr q) = true ∨
          containsSub (lowerStr n.content) (lowerStr q) = true ∨
          ∃ t ∈ n.tags, containsSub (lowerStr t) (lowerStr q) = true) ∧
        (tf = none ∨ ∃ tg, tf = some tg ∧ tg ∈ n.tags)) := by
  unfold filteredNotes
  rw [List.Perm.mem_iff (List.mergeSort_perm _ _), List.mem_filter]
  rw [Bool.and_eq_true, matchesSearch_iff, matchesTag_iff]
  simp [hn]

/-- C2 witness: query "wor" makes the note titled "Work plan" visible. -/
theorem c2_visible_iff_witness : noteA ∈ filteredNotes [noteA] "wor" none := by
  have h := c2_visible_iff [noteA] "wor" none noteA (by simp)
  exact h.mpr ⟨Or.inr (Or.inl (by decide)), Or.inl rfl⟩

/-- C3: the visible set is always sorted descending by updatedAt, and with an
empty query and no tag filter it contains exactly the notes of the
collection. -/
theorem c3_default_view (notes : List Note) :
    (filteredNotes notes "" none).Perm notes ∧
    ∀ q tf, (filteredNotes notes q tf).Pairwise (fun a b => b.updatedAt ≤ a.updatedAt) := by
  constructor
  · have hf : notes.filter (fun n => matchesSearch "" n && matchesTag none n) = notes := by
      refine List.filter_eq_self.mpr ?_
      intro a _
      simp [matchesSearch, matchesTag]
    unfold filteredNotes
    rw [hf]
    exact List.mergeSort_perm _ _
  · intro q tf
    have hs := @List.sorted_mergeSort Note
        (fun a b => decide (b.updatedAt ≤ a.updatedAt))
        (fun a b c hab hbc => by
          simp only [decide_eq_true_eq] at hab hbc ⊢
          omega)
        (fun a b => by
          simp only [Bool.or_eq_true, decide_eq_true_eq]
          omega)
        (notes.filter (fun n => matchesSearch q n && matchesTag tf n))
    exact hs.imp (fun h => by simpa using h)

theorem persist_spec (ns : List Note) (s : Storage) :
    (ns ≠ [] → persist ns s = some (.notes ns)) ∧ (ns = [] → persist ns s = s) := by
  constructor
  · intro h
    have : ns.length > 0 := List.length_pos.mpr h
    simp [persist, this]
  · intro h
    subst h
    simp [persist]

theorem saveNote_guard_false {buf : EditBuffer}
    (hbuf : ¬(trimStr buf.title = "" ∧ trimStr buf.content = "")) :
    (trimStr buf.title == "" && trimStr buf.content == "") = false := by
  cases h1 : trimStr buf.title == "" <;> cases h2 : trimStr buf.content == "" <;>
    simp_all

/-- C5: every mutating operation (create or update through saveNote with a
non-empty buffer, confirmed delete) leaves the storage slot holding the
serialization of the full resulting collection when that collection is
non-empty, and leaves the slot untouched when it is empty. -/
theorem c5_persist_after_mutation (buf : EditBuffer) (cur : Option Note)
    (newId : String) (now : Nat) (id : String) (st : AppState)
    (hbuf : ¬(trimStr buf.title = "" ∧ trimStr buf.content = "")) :
    (((saveNote buf cur newId now st).notes ≠ [] →
        (saveNote buf cur newId now st).storage =
          some (StoredValue.notes (saveNote buf cur newId now st).notes)) ∧
      ((saveNote buf cur newId now st).notes = [] →
        (saveNote buf cur newId now st).storage = st.storage)) ∧
    (((deleteNote id true st).notes ≠ [] →
        (deleteNote id true st).storage =
          some (StoredValue.notes (deleteNote id true st).notes)) ∧
      ((deleteNote id true st).notes = [] →
        (deleteNote id true st).storage = st.storage)) := by
  constructor
  · have hg := saveNote_guard_false hbuf
    simp only [saveNote, hg, Bool.false_eq_true, if_false]
    exact persist_spec _ st.storage
  · simp only [deleteNote, if_true]
    exact persist_spec _ st.storage

/-- C5 witness: on a concrete state, a confirmed delete of a missing id
leaves a non-empty collection and the slot holds its serialization. -/
theorem c5_persist_after_mutation_witness :
    (deleteNote "zzz" true stA).storage =
      some (StoredValue.notes (deleteNote "zzz" true stA).notes) :=
  (c5_persist_after_mutation bufX none "fresh" 5 "zzz" stA (by decide)).2.1
    (by decide)

/-- C6: the update branch replaces exactly the matching note's title, content
and tags and stamps updatedAt with now, while preserving its id and
createdAt, every other note, and the length and order of the collection; an
absent id makes it a no-op. -/
theorem c6_update_frame (targetId : String) (buf : EditBuffer) (now : Nat)
    (notes : List Note) :
    (updateNotes targetId buf now notes).length = notes.length ∧
    (∀ i : Nat, (updateNotes targetId buf now notes)[i]? =
        (notes[i]?).map fun n =>
          if n.id = targetId then
            { id := n.id, title := buf.title, content := buf.content,
              tags := buf.tags, createdAt := n.createdAt, updatedAt := now }
          else n) ∧
    ((∀ n ∈ notes, n.id ≠ targetId) → updateNotes targetId buf now notes = notes) := by
  refine ⟨by simp [updateNotes], ?_, ?_⟩
  · intro i
    unfold updateNotes
    rw [List.getElem?_map]
    refine congrFun (congrArg Option.map ?_) _
    funext n
    by_cases hid : n.id = targetId
    · simp [hid]
    · simp [hid]
  · intro h
    unfold updateNotes
    have hcong : ∀ n ∈ notes,
        (if n.id == targetId then
          { n with
            title := buf.title
            content := buf.content
            tags := buf.tags
            updatedAt := now }
         else n) = id n := by
      intro n hn
      simp [h n hn]
    rw [List.map_congr_left hcong, List.map_id]

/-- C6 witness: updating an id absent from a concrete collection changes
nothing. -/
theorem c6_update_frame_witness : updateNotes "b" bufX 5 [noteA] = [noteA] :=
  (c6_update_frame "b" bufX 5 [noteA]).2.2 (by decide)

/-- C7: saving a fresh note with a non-empty buffer prepends a note carrying
the generated id and createdAt = updatedAt = now, leaves every prior note
unchanged in its prior position, and preserves uniqueness of ids when the
generated id is fresh. -/
theorem c7_add_prepend (buf : EditBuffer) (newId : String) (now : Nat)
    (st : AppState)
    (hbuf : ¬(trimStr buf.title = "" ∧ trimStr buf.content = ""))
    (hfresh : ∀ n ∈ st.notes, n.id ≠ newId) :
    (saveNote buf none newId now st).notes =
      { id := newId, title := buf.title, content := buf.content,
        tags := buf.tags, createdAt := now, updatedAt := now } :: st.notes ∧
    ((st.notes.map Note.id).Nodup →
      ((saveNote buf none newId now st).notes.map Note.id).Nodup) := by
  have hg := saveNote_guard_false hbuf
  have hns : (saveNote buf none newId now st).notes = mkNote newId buf now :: st.notes := by
    simp [saveNote, hg]
  refine ⟨hns, ?_⟩
  intro hnd
  rw [hns, List.map_cons, List.nodup_cons]
  refine ⟨?_, hnd⟩
  intro hmem
  obtain ⟨n, hn, heq⟩ := List.mem_map.mp hmem
  exact hfresh n hn heq

/-- C7 witness: prepending a fresh note to a concrete collection keeps the
ids pairwise distinct. -/
theorem c7_add_prepend_witness :
    ((saveNote bufX none "fresh" 7 stA).notes.map Note.id).Nodup := by
  have h := c7_add_prepend bufX "fresh" 7 stA (by decide) (by decide)
  exact h.2 (by decide)

/-- C8: deleting an id absent from the collection is a no-op, and deleting a
present id (ids being unique) drops exactly the matching note while keeping
the remaining notes in their relative order. -/
theorem c8_remove_spec (id : String) (notes : List Note) :
    ((∀ n ∈ notes, n.id ≠ id) → removeNotes id notes = notes) ∧
    (∀ n₀, n₀ ∈ notes → n₀.id = id → (notes.map Note.id).Nodup →
      ∃ l₁ l₂, notes = l₁ ++ n₀ :: l₂ ∧ removeNotes id notes = l₁ ++ l₂) := by
  constructor
  · intro h
    refine List.filter_eq_self.mpr ?_
    intro a ha
    simp [h a ha]
  · intro n₀ hmem hid hnd
    obtain ⟨l₁, l₂, rfl⟩ := List.mem_iff_append.mp hmem
    refine ⟨l₁, l₂, rfl, ?_⟩
    rw [List.map_append, List.map_cons, List.nodup_middle, List.nodup_cons] at hnd
    obtain ⟨hnotmem, _⟩ := hnd
    have hne : ∀ a ∈ l₁ ++ l₂, a.id ≠ id := by
      intro a ha heq
      apply hnotmem
      rw [List.mem_append] at ha
      rcases ha with h | h
      · exact List.mem_append.mpr (Or.inl (List.mem_map.mpr ⟨a, h, heq.trans hid.symm⟩))
      · exact List.mem_append.mpr (Or.inr (List.mem_map.mpr ⟨a, h, heq.trans hid.symm⟩))
    have e0 : (!(n₀.id == id)) = false := by simp [hid]
    have e1 : l₁.filter (fun n => !(n.id == id)) = l₁ :=
      List.filter_eq_self.mpr fun a ha => by
        simp [hne a (List.mem_append.mpr (Or.inl ha))]
    have e2 : l₂.filter (fun n => !(n.id == id)) = l₂ :=
      List.filter_eq_self.mpr fun a ha => by
        simp [hne a (List.mem_append.mpr (Or.inr ha))]
    simp [removeNotes, List.filter_append, List.filter_cons, e0, e1, e2]

/-- C8 witness: deleting an id no note carries leaves a concrete collection
unchanged. -/
theorem c8_remove_spec_witness : removeNotes "zzz" [noteA, noteB] = [noteA, noteB] :=
  (c8_remove_spec "zzz" [noteA, noteB]).1 (by decide)

theorem toNat_ofNat_valid {n : Nat} (h : n.isValidChar) : (Char.ofNat n).toNat = n := by
  rw [Char.ofNat, dif_pos h]
  rfl

theorem toLower_idem (c : Char) : (c.toLower).toLower = c.toLower := by
  unfold Char.toLower
  by_cases h : c.toNat ≥ 65 ∧ c.toNat ≤ 90
  · rw [if_pos h]
    have hv : (Char.ofNat (c.toNat + 32)).toNat = c.toNat + 32 :=
      toNat_ofNat_valid (Or.inl (by omega))
    rw [if_neg (by omega)]
  · rw [if_neg h, if_neg h]

theorem lowerStr_idem (s : String) : lowerStr (lowerStr s) = lowerStr s := by
  unfold lowerStr
  refine congrArg String.mk ?_
  show (s.data.map Char.toLower).map Char.toLower = s.data.map Char.toLower
  rw [List.map_map]
  exact List.map_congr_left fun a _ => toLower_idem a

theorem pairwise_lower_ne {l : List String} (hlc : ∀ t ∈ l, lowerStr t = t)
    (hnd : l.Nodup) : l.Pairwise (fun a b => lowerStr a ≠ lowerStr b) := by
  refine List.Pairwise.imp_of_mem ?_ hnd
  intro a b ha hb hne
  rw [hlc a ha, hlc b hb]
  exact hne

theorem addTag_eq (tagInput : String) (currentTags : List String) :
    addTag tagInput currentTags =
      if lowerStr (trimStr tagInput) != "" &&
          !currentTags.contains (lowerStr (trimStr tagInput)) then
        currentTags ++ [lowerStr (trimStr tagInput)]
      else currentTags := rfl

/-- C9: addTag lowercases (and trims) its input and skips it when already
present, so a tag list that is lowercase and duplicate-free stays so and in
particular never holds case-variant duplicates; adding "Work" and then
"work" yields exactly the single tag "work". -/
theorem c9_addTag_lowercase (input : String) (tags : List String)
    (hlc : ∀ t ∈ tags, lowerStr t = t) (hnd : tags.Nodup) :
    (∀ t ∈ addTag input tags, lowerStr t = t) ∧
    (addTag input tags).Nodup ∧
    (addTag input tags).Pairwise (fun a b => lowerStr a ≠ lowerStr b) ∧
    addTag "work" (addTag "Work" []) = ["work"] := by
  have hkey : (∀ t ∈ addTag input tags, lowerStr t = t) ∧ (addTag input tags).Nodup := by
    rw [addTag_eq]
    by_cases hcond : (lowerStr (trimStr input) != "" &&
        !tags.contains (lowerStr (trimStr input))) = true
    · rw [if_pos hcond]
      simp only [Bool.and_eq_true, bne_iff_ne, Bool.not_eq_true'] at hcond
      have hmem : lowerStr (trimStr input) ∉ tags := by
        have h2 := hcond.2
        intro hm
        rw [List.contains_eq_any_beq] at h2
        simp [List.any_eq_true] at h2
        exact h2 _ hm rfl
      constructor
      · intro t ht
        rcases List.mem_append.mp ht with h | h
        · exact hlc t h
        · rw [List.mem_singleton] at h
          subst h
          exact lowerStr_idem _
      · rw [List.nodup_append]
        refine ⟨hnd, List.nodup_singleton _, ?_⟩
        intro a ha hb
        rw [List.mem_singleton] at hb
        subst hb
        exact hmem ha
    · rw [if_neg hcond]
      exact ⟨hlc, hnd⟩
  exact ⟨hkey.1, hkey.2, pairwise_lower_ne hkey.1 hkey.2, by decide⟩

/-- C9 witness: adding a mixed-case tag to a concrete lowercase duplicate-free
list keeps it duplicate-free. -/
theorem c9_addTag_lowercase_witness : (addTag "Beta" ["alpha"]).Nodup :=
  (c9_addTag_lowercase "Beta" ["alpha"] (by decide) (by decide)).2.1

/-- C10: from a state whose slot holds its non-empty collection, a confirmed
delete that empties the collection skips the write, so the slot still holds
the pre-delete collection and a reload yields the deleted notes, not the
empty collection. -/
theorem c10_deleted_notes_reappear (st : AppState) (id : String)
    (hsync : st.storage = some (StoredValue.notes st.notes))
    (hne : st.notes ≠ [])
    (hempty : (deleteNote id true st).notes = []) :
    (deleteNote id true st).storage = some (StoredValue.notes st.notes) ∧
    load (deleteNote id true st).storage = Except.ok st.notes ∧
    load (deleteNote id true st).storage ≠ Except.ok ([] : List Note) := by
  have hrm : removeNotes id st.notes = [] := hempty
  have h1 : (deleteNote id true st).storage = st.storage := by
    show persist (removeNotes id st.notes) st.storage = st.storage
    rw [hrm]
    exact (persist_spec [] st.storage).2 rfl
  rw [h1, hsync]
  refine ⟨rfl, rfl, ?_⟩
  intro hcontra
  have : st.notes = [] := by simpa [load, parseStored] using hcontra
  exact hne this

/-- C10 witness: deleting the only note of a concrete synced state leaves the
old serialization in the slot, so loading restores the deleted note. -/
theorem c10_deleted_notes_reappear_witness :
    load (deleteNote "a" true stA).storage = Except.ok [noteA] :=
  (c10_deleted_notes_reappear stA "a" rfl (by decide) (by decide)).2.1
